import Mathlib

/-!
# Verification of the mlcfg printer (creusot)

Shallow embedding of `src/creusot/src/mlcfg/printer.rs` together with the IR
data model it prints (qualified names, types, expressions, statements,
terminators, blocks, functions and algebraic type declarations).
The printers are translated line by line from the Rust source: `write!` turns
into string append, `writeln!` appends a trailing newline, iterator `format`
joins become `sepBy`, and the `unreachable!` arm of `bin_op_to_string`
becomes an `Option` failure that propagates through rendering.
-/

namespace Mlcfg

/-- Machine integer widths, after `rustc_ast::ast::IntTy`. -/
inductive IntTy
  | I8 | I16 | I32 | I64 | I128 | Isize
deriving DecidableEq, Repr

/-- Unsigned machine integer widths, after `rustc_ast::ast::UintTy`. -/
inductive UintTy
  | U8 | U16 | U32 | U64 | U128 | Usize
deriving DecidableEq, Repr

/-- Floating point widths, after `rustc_ast::ast::FloatTy`. -/
inductive FloatTy
  | F32 | F64
deriving DecidableEq, Repr

/-- Binary operators, after `rustc_middle::mir::BinOp`. -/
inductive BinOp
  | Add | Sub | Mul | Div | Rem | BitXor | BitAnd | BitOr | Shl | Shr
  | Eq | Lt | Le | Ne | Ge | Gt | Offset
deriving DecidableEq, Repr

/-- The printer's operator sum: logical connectives or a MIR operator. -/
inductive FullBinOp
  | And
  | Or
  | Other (op : BinOp)
deriving DecidableEq, Repr

/-- A fully qualified name: module path segments plus identifier segments. -/
structure QName where
  module : List String
  name : List String
deriving DecidableEq, Repr

/-- The printed IR types (the `Type` enum of the source). `Type` is reserved
in Lean, hence the name `Ty`. -/
inductive Ty
  | Bool
  | Char
  | Int (size : IntTy)
  | Uint (size : UintTy)
  | Float (size : FloatTy)
  | MutableBorrow (t : Ty)
  | TVar (v : String)
  | TConstructor (ty : QName)
  | TApp (tyf : Ty) (args : List Ty)
  | Tuple (tys : List Ty)

/-- Modelled from the spec: `Type::complex` is declared in the mlcfg module,
which is not among the sources (only an outdated variant is). Per the spec, a
type is complex (needs wrapping) iff it is anything other than the atomic
forms: boolean, char, integer/float of any width, type variable, tuple, bare
type-constructor reference. -/
def Ty.complex (t : Ty) :=
  match t with
  | .Bool | .Char | .Int _ | .Uint _ | .Float _
  | .TVar _ | .Tuple _ | .TConstructor _ => false
  | _ => true

/-- An opaque pre-rendered literal token (the `Constant` newtype). -/
structure Constant where
  val : String
deriving DecidableEq, Repr

/-- `Display` of `Constant` prints the wrapped token itself. -/
def Constant.display (c : Constant) : String := c.val

/-- Patterns, as printed by `impl Display for Pattern`. -/
inductive Pattern
  | Wildcard
  | VarP (v : String)
  | TupleP (vs : List Pattern)
  | ConsP (c : String) (pats : List Pattern)
  | LitP (lit : Constant)

/-- Expressions (the `Exp` enum of the source). -/
inductive Exp
  | Current (e : Exp)
  | Final (e : Exp)
  | Let (pattern : Pattern) (arg : Exp) (body : Exp)
  | Var (v : String)
  | RecUp (record : Exp) (label : String) (val : Exp)
  | Tuple (vs : List Exp)
  | Constructor (ctor : QName) (args : List Exp)
  | BorrowMut (exp : Exp)
  | Const (c : Constant)
  | BinaryOp (op : FullBinOp) (l : Exp) (r : Exp)
  | Call (fn : QName) (args : List Exp)
  | Verbatim (verb : String)
  | Forall (binders : List (String × Ty)) (exp : Exp)
  | Exists (binders : List (String × Ty)) (exp : Exp)
  | Impl (hyp : Exp) (exp : Exp)

/-- Modelled from the spec: `Exp::precedence` is declared in the mlcfg module,
which is not among the sources. Per the spec, each expression variant has a
fixed rank; atomic forms (variables, literals, tuples, constructors, verbatim
fragments) never need parentheses, so they receive the greatest rank, loose
binders (let, quantifiers) the least, and the spec's scenario fixes the ranks
of `Sub` and `Div` (indeed of all the `Other` operators) to be equal. -/
def Exp.precedence (e : Exp) : Nat :=
  match e with
  | .Let _ _ _ => 0
  | .Forall _ _ => 0
  | .Exists _ _ => 0
  | .Impl _ _ => 1
  | .BinaryOp .Or _ _ => 2
  | .BinaryOp .And _ _ => 3
  | .BinaryOp (.Other _) _ _ => 4
  | .Current _ => 5
  | .Final _ => 5
  | .BorrowMut _ => 5
  | .Call _ _ => 6
  | .RecUp _ _ _ => 7
  | .Var _ => 10
  | .Tuple _ => 10
  | .Constructor _ _ => 10
  | .Const _ => 10
  | .Verbatim _ => 10

/-- Statements, as printed by `impl EnvDisplay for Statement`. -/
inductive Statement
  | Assign (lhs : String) (rhs : Exp)
  | Freeze (loc : String)
  | Invariant (nm : String) (e : Exp)

/-- Block identifiers; displayed as `BB<n>`. -/
structure BlockId where
  n : Nat
deriving DecidableEq, Repr

/-- Terminators, as printed by `impl EnvDisplay for Terminator`. -/
inductive Terminator
  | Goto (tgt : BlockId)
  | Absurd
  | Return
  | Switch (discr : Exp) (brs : List (Pattern × BlockId))

/-- A basic block: label, statements, terminator. -/
structure Block where
  label : BlockId
  statements : List Statement
  terminator : Terminator

/-- A function: name, arguments, return type, contract, locals and blocks. -/
structure Function where
  name : QName
  args : List (String × Ty)
  retty : Ty
  preconds : List String
  postconds : List String
  vars : List (String × Ty)
  blocks : List Block

/-- An algebraic type declaration. -/
structure TyDecl where
  ty_name : QName
  ty_params : List String
  ty_constructors : List (String × List Ty)

/-- The printing environment: open scope segments and current indentation. -/
structure FormatEnv where
  scope : List String
  indent : Nat
deriving DecidableEq, Repr

/-- `iter().format(sep)`: join the strings with `sep` between elements. -/
def sepBy (sep : String) : List String → String
  | [] => ""
  | [s] => s
  | s :: ss => s ++ sep ++ sepBy sep ss

/-- `write!(f, "{:indent$}", "")`: a run of `n` spaces. -/
def indentStr (n : Nat) : String := String.mk (List.replicate n (' '))

/-- `bin_op_to_string`; the `unreachable!("unexpected bin-op")` arm is
modelled as `none`. -/
def binOpToString : FullBinOp → Option String
  | .And => some ("&&")
  | .Or => some ("||")
  | .Other .Add => some ("+")
  | .Other .Sub => some ("-")
  | .Other .Mul => some ("*")
  | .Other .Eq => some ("=")
  | .Other .Ne => some ("<>")
  | .Other .Gt => some (">")
  | .Other .Ge => some (">=")
  | .Other .Lt => some ("<")
  | .Other .Le => some ("<=")
  | _ => none

/-- The `parens!` macro: wrap the rendered child when its precedence is
strictly below the parent's. -/
def wrapIf (parent child : Exp) (s : String) : String :=
  if child.precedence < parent.precedence then "(" ++ s ++ ")" else s

/-- `impl Display for BlockId`: `BB<n>`. -/
def printBlockId (b : BlockId) : String := "BB" ++ Nat.repr b.n

/-- `impl EnvDisplay for QName`: strip the position-wise shared prefix of the
open scope and the module path (over their `zip`), join the surviving module
segments with `.` and the identifier segments with `_`. -/
def printQName (fe : FormatEnv) (q : QName) : String :=
  let module_path :=
    sepBy "." (((fe.scope.zip q.module).dropWhile (fun t => t.1 == t.2)).map (fun t => t.2))
  let ident := sepBy "_" q.name
  if module_path = "" then ident else module_path ++ "." ++ ident

/-- Wrap in parentheses when the flag is set (the `complex` wrapping of
`impl EnvDisplay for Type`). -/
def parensWhen (b : Bool) (s : String) : String :=
  if b then "(" ++ s ++ ")" else s

mutual

/-- `impl EnvDisplay for Type`: print the head form, wrapped in parentheses
when the type is complex. -/
def printType (fe : FormatEnv) : Ty → String
  | .Bool => parensWhen Ty.Bool.complex "bool"
  | .Char => parensWhen Ty.Char.complex "char"
  | .Int .I8 => parensWhen (Ty.Int .I8).complex "int8"
  | .Int .I16 => parensWhen (Ty.Int .I16).complex "int16"
  | .Int .I32 => parensWhen (Ty.Int .I32).complex "int32"
  | .Int .I64 => parensWhen (Ty.Int .I64).complex "int64"
  | .Int .I128 => parensWhen (Ty.Int .I128).complex "int128"
  | .Int .Isize => parensWhen (Ty.Int .Isize).complex "isize"
  | .Uint .U8 => parensWhen (Ty.Uint .U8).complex "uint8"
  | .Uint .U16 => parensWhen (Ty.Uint .U16).complex "uint16"
  | .Uint .U32 => parensWhen (Ty.Uint .U32).complex "uint32"
  | .Uint .U64 => parensWhen (Ty.Uint .U64).complex "uint64"
  | .Uint .U128 => parensWhen (Ty.Uint .U128).complex "uint128"
  | .Uint .Usize => parensWhen (Ty.Uint .Usize).complex "usize"
  | .Float .F32 => parensWhen (Ty.Float .F32).complex "single"
  | .Float .F64 => parensWhen (Ty.Float .F64).complex "double"
  | .MutableBorrow t =>
      parensWhen (Ty.MutableBorrow t).complex ("borrowed " ++ printType fe t)
  | .TVar v => parensWhen (Ty.TVar v).complex v
  | .TConstructor ty => parensWhen (Ty.TConstructor ty).complex (printQName fe ty)
  | .TApp tyf args =>
      parensWhen (Ty.TApp tyf args).complex
        (printType fe tyf ++ " " ++ sepBy " " (printTypeList fe args))
  | .Tuple tys =>
      parensWhen (Ty.Tuple tys).complex ("(" ++ sepBy " " (printTypeList fe tys) ++ ")")

/-- Render each type of a list (type-application arguments, tuple members). -/
def printTypeList (fe : FormatEnv) : List Ty → List String
  | [] => []
  | t :: ts => printType fe t :: printTypeList fe ts

end

mutual

/-- `impl Display for Pattern`. -/
def printPattern : Pattern → String
  | .Wildcard => "_"
  | .VarP v => v
  | .TupleP vs => "(" ++ sepBy ", " (printPatternList vs) ++ ")"
  | .ConsP c pats =>
      if pats.isEmpty then c
      else c ++ "(" ++ sepBy ", " (printPatternList pats) ++ ")"
  | .LitP lit => lit.display

/-- Render each pattern of a list (tuple members, constructor arguments). -/
def printPatternList : List Pattern → List String
  | [] => []
  | p :: ps => printPattern p :: printPatternList ps

end

/-- Modelled from the spec: the plain `Display` instance for `QName` (used by
the printer for constructor and callee names) is not among the sources; per
the data-model section a qualified name stands for the fully resolved name,
so it is rendered with no scope shortening: module segments joined with `.`,
identifier segments joined with `_`. -/
def QName.display (q : QName) : String :=
  let module_path := sepBy "." q.module
  let ident := sepBy "_" q.name
  if module_path = "" then ident else module_path ++ "." ++ ident

mutual

/-- `impl EnvDisplay for Exp`, case by case in source order; `none` means the
render aborted in `bin_op_to_string`'s unreachable arm. -/
def printExp (fe : FormatEnv) : Exp → Option String
  | .Current e => (printExp fe e).map (fun s => " * " ++ s)
  | .Final e => (printExp fe e).map (fun s => " ^ " ++ s)
  | .Let pattern arg body =>
      (printExp fe arg).bind (fun a =>
        (printExp fe body).map (fun b =>
          "let " ++ printPattern pattern ++ " = " ++
            wrapIf (.Let pattern arg body) arg a ++ " in " ++
            wrapIf (.Let pattern arg body) body b))
  | .Var v => some v
  | .RecUp record label val =>
      (printExp fe record).bind (fun r =>
        (printExp fe val).map (fun v =>
          "\x7b " ++ wrapIf (.RecUp record label val) record r ++ " with " ++
            label ++ " = " ++ wrapIf (.RecUp record label val) val v ++ " \x7d"))
  | .Tuple vs =>
      (printExpList fe vs).map (fun ss => "(" ++ sepBy ", " ss ++ ")")
  | .Constructor ctor args =>
      if args.isEmpty then some (printQName fe ctor)
      else (printExpList fe args).map (fun ss =>
        ctor.display ++ "(" ++ sepBy ", " ss ++ ")")
  | .BorrowMut exp =>
      (printExp fe exp).map (fun s => "borrow_mut " ++ wrapIf (.BorrowMut exp) exp s)
  | .Const c => some c.display
  | .BinaryOp (.Other .Div) l r =>
      (printExp fe l).bind (fun ls =>
        (printExp fe r).map (fun rs =>
          "div " ++ wrapIf (.BinaryOp (.Other .Div) l r) l ls ++ " " ++
            wrapIf (.BinaryOp (.Other .Div) l r) r rs))
  | .BinaryOp op l r =>
      (printExp fe l).bind (fun ls =>
        (binOpToString op).bind (fun ops =>
          (printExp fe r).map (fun rs =>
            wrapIf (.BinaryOp op l r) l ls ++ " " ++ ops ++ " " ++
              wrapIf (.BinaryOp op l r) r rs)))
  | .Call fn args =>
      (printArgs fe (.Call fn args) args).map (fun ss =>
        fn.display ++ " " ++ sepBy " " ss)
  | .Verbatim verb => some verb
  | .Forall binders exp =>
      (printExp fe exp).map (fun s =>
        "forall " ++
          String.join (binders.map (fun b =>
            "(" ++ b.1 ++ " : " ++ printType fe b.2 ++ ") ")) ++
          ". " ++ s)
  | .Exists binders exp =>
      (printExp fe exp).map (fun s =>
        "exists " ++
          String.join (binders.map (fun b =>
            "(" ++ b.1 ++ " : " ++ printType fe b.2 ++ ") ")) ++
          ". " ++ s)
  | .Impl hyp exp =>
      (printExp fe hyp).bind (fun h =>
        (printExp fe exp).map (fun c =>
          wrapIf (.Impl hyp exp) hyp h ++ " -> " ++ wrapIf (.Impl hyp exp) exp c))

/-- Render each expression of a list (tuple members, constructor arguments). -/
def printExpList (fe : FormatEnv) : List Exp → Option (List String)
  | [] => some []
  | e :: es =>
      (printExp fe e).bind (fun s => (printExpList fe es).map (fun ss => s :: ss))

/-- Render each call argument, wrapped against the parent call. -/
def printArgs (fe : FormatEnv) (parent : Exp) : List Exp → Option (List String)
  | [] => some []
  | a :: as =>
      (printExp fe a).bind (fun s =>
        (printArgs fe parent as).map (fun ss => wrapIf parent a s :: ss))

end

/-- Sequence a fallible render over a list, keeping the results in order
(the behaviour of a Rust `for` loop whose body may abort with `?` or a
panic). -/
def optionList (f : α → Option β) : List α → Option (List β)
  | [] => some []
  | a :: as => (f a).bind (fun b => (optionList f as).map (fun bs => b :: bs))

/-- `impl EnvDisplay for Statement`: indent the line, then print the
statement head (no trailing newline; the caller adds `;` and newline). -/
def printStatement (fe : FormatEnv) : Statement → Option String
  | .Assign lhs rhs =>
      (printExp fe rhs).map (fun r => indentStr fe.indent ++ (lhs ++ " <- " ++ r))
  | .Freeze loc =>
      some (indentStr fe.indent ++ ("assume \x7b ^ " ++ loc ++ " = * " ++ loc ++ " \x7d"))
  | .Invariant nm e =>
      (printExp fe e).map (fun r =>
        indentStr fe.indent ++ ("invariant " ++ nm ++ " \x7b " ++ r ++ " \x7d"))

/-- `impl EnvDisplay for Terminator`: indent, then one line for
`goto`/`absurd`/`_0`, or the `switch` layout with arms and `end` printed two
columns deeper. -/
def printTerminator (fe : FormatEnv) : Terminator → Option String
  | .Goto tgt => some (indentStr fe.indent ++ ("goto " ++ printBlockId tgt) ++ "\n")
  | .Absurd => some (indentStr fe.indent ++ "absurd" ++ "\n")
  | .Return => some (indentStr fe.indent ++ "_0" ++ "\n")
  | .Switch discr brs =>
      (printExp fe discr).map (fun d =>
        indentStr fe.indent ++ ("switch (" ++ d ++ ")") ++ "\n" ++
        String.join (brs.map (fun br =>
          indentStr (fe.indent + 2) ++
            ("| " ++ printPattern br.1 ++ " -> goto " ++ printBlockId br.2) ++ "\n")) ++
        indentStr (fe.indent + 2) ++ "end" ++ "\n")

/-- `impl EnvDisplay for Block`: the label line, the statements (indented two
more columns, each closed with `;`), the terminator, the closing brace. -/
def printBlock (fe : FormatEnv) (b : Block) : Option String :=
  (optionList (printStatement ⟨fe.scope, fe.indent + 2⟩) b.statements).bind (fun ss =>
    (printTerminator ⟨fe.scope, fe.indent + 2⟩ b.terminator).map (fun ts =>
      indentStr fe.indent ++ (printBlockId b.label ++ " \x7b") ++ "\n" ++
      String.join (ss.map (fun s => s ++ ";" ++ "\n")) ++
      ts ++
      indentStr fe.indent ++ "\x7d" ++ "\n"))

/-- `impl EnvDisplay for Function`, in source order: header line, contract
lines and `=` two columns deeper, forward declarations, the prologue block
aliasing arguments and jumping to `BB0`, then every block; `bs` holds the
text of the already-printed blocks. -/
def printFunctionOf (fe : FormatEnv) (fn : Function) (bs : List String) : String :=
    indentStr fe.indent ++ ("let cfg " ++ printQName fe fn.name ++ " ") ++
    (if fn.args.isEmpty then "()" else "") ++
    String.join (fn.args.map (fun a =>
      "(o_" ++ a.1 ++ " : " ++ printType fe a.2 ++ ")")) ++
    (" : " ++ printType fe fn.retty) ++ "\n" ++
    String.join (fn.preconds.map (fun req =>
      indentStr (fe.indent + 2) ++ ("requires \x7b " ++ req ++ " \x7d") ++ "\n")) ++
    String.join (fn.postconds.map (fun req =>
      indentStr (fe.indent + 2) ++ ("ensures \x7b " ++ req ++ " \x7d") ++ "\n")) ++
    indentStr (fe.indent + 2) ++ "=" ++ "\n" ++
    indentStr fe.indent ++ ("var _0 : " ++ printType fe fn.retty ++ ";") ++ "\n" ++
    String.join (fn.args.map (fun a =>
      indentStr fe.indent ++ ("var " ++ a.1 ++ " : " ++ printType fe a.2 ++ ";") ++ "\n")) ++
    String.join (fn.vars.map (fun a =>
      indentStr fe.indent ++ ("var " ++ a.1 ++ " : " ++ printType fe a.2 ++ ";") ++ "\n")) ++
    indentStr fe.indent ++ "\x7b" ++ "\n" ++
    String.join (fn.args.map (fun a =>
      indentStr (fe.indent + 2) ++ (a.1 ++ " <- o_" ++ a.1 ++ ";") ++ "\n")) ++
    indentStr (fe.indent + 2) ++ "goto BB0;" ++ "\n" ++
    indentStr fe.indent ++ "\x7d" ++ "\n" ++
    String.join bs

/-- `impl EnvDisplay for Function`: print every block, then assemble. -/
def printFunction (fe : FormatEnv) (fn : Function) : Option String :=
  (optionList (printBlock fe) fn.blocks).map (printFunctionOf fe fn)

/-- `impl EnvDisplay for TyDecl`: the `type` header, then one constructor per
line, indented two more columns, each line carrying the literal `"  | "`
prefix of the source format string. -/
def printTyDecl (fe : FormatEnv) (d : TyDecl) : String :=
  indentStr fe.indent ++
    ("type " ++ printQName fe d.ty_name ++ " " ++ sepBy " " d.ty_params ++ " =") ++ "\n" ++
  String.join (d.ty_constructors.map (fun c =>
    indentStr (fe.indent + 2) ++
      (if c.2.isEmpty then "  | " ++ c.1
       else "  | " ++ c.1 ++ "(" ++
         sepBy ", " (printTypeList ⟨fe.scope, fe.indent + 2⟩ c.2) ++ ")") ++ "\n"))

/-! ## The operator set the printer supports

`bin_op_to_string` answers for the eleven infix operators; `Div` never
reaches it because `Exp::fmt` matches it first. -/

/-- The supported operators: logical and/or, add, sub, mul, the six
comparisons, and division (printed in prefix form). -/
def supportedOp : FullBinOp → Bool
  | .And | .Or => true
  | .Other .Add | .Other .Sub | .Other .Mul => true
  | .Other .Eq | .Other .Ne => true
  | .Other .Gt | .Other .Ge | .Other .Lt | .Other .Le => true
  | .Other .Div => true
  | _ => false

mutual

/-- Every binary operation in the expression uses a supported operator. -/
def opsSupported (e : Exp) : Bool :=
  match e with
  | .Current e => opsSupported e
  | .Final e => opsSupported e
  | .Let _ a b => opsSupported a && opsSupported b
  | .Var _ => true
  | .RecUp r _ v => opsSupported r && opsSupported v
  | .Tuple es => opsSupportedList es
  | .Constructor _ args => opsSupportedList args
  | .BorrowMut e => opsSupported e
  | .Const _ => true
  | .BinaryOp op l r => supportedOp op && opsSupported l && opsSupported r
  | .Call _ args => opsSupportedList args
  | .Verbatim _ => true
  | .Forall _ e => opsSupported e
  | .Exists _ e => opsSupported e
  | .Impl h c => opsSupported h && opsSupported c

/-- `opsSupported` over every expression of a list. -/
def opsSupportedList (es : List Exp) : Bool :=
  match es with
  | [] => true
  | e :: es => opsSupported e && opsSupportedList es

end

/-! ## Line structure of the printed output

`functionLines`/`blockLines`/`terminatorLines`/`tyDeclLines` give the printed
text line by line (without the terminating newlines); `functionIndents` etc.
give, per line, the indentation the environment prescribes there: the base
indent plus 2 for each enclosing `fe.indent(2, ..)` call. -/

/-- The lines of a printed terminator. -/
def terminatorLines (fe : FormatEnv) : Terminator → Option (List String)
  | .Goto tgt => some [indentStr fe.indent ++ ("goto " ++ printBlockId tgt)]
  | .Absurd => some [indentStr fe.indent ++ "absurd"]
  | .Return => some [indentStr fe.indent ++ "_0"]
  | .Switch discr brs =>
      (printExp fe discr).map (fun d =>
        (indentStr fe.indent ++ ("switch (" ++ d ++ ")")) ::
        (brs.map (fun br =>
          indentStr (fe.indent + 2) ++
            ("| " ++ printPattern br.1 ++ " -> goto " ++ printBlockId br.2)) ++
         [indentStr (fe.indent + 2) ++ "end"]))

/-- The lines of a printed block. -/
def blockLines (fe : FormatEnv) (b : Block) : Option (List String) :=
  (optionList (printStatement ⟨fe.scope, fe.indent + 2⟩) b.statements).bind (fun ss =>
    (terminatorLines ⟨fe.scope, fe.indent + 2⟩ b.terminator).map (fun ts =>
      (indentStr fe.indent ++ (printBlockId b.label ++ " \x7b")) ::
      (ss.map (fun s => s ++ ";") ++ ts ++ [indentStr fe.indent ++ "\x7d"])))

/-- The lines of a printed function, given the lines of its blocks. -/
def functionLinesOf (fe : FormatEnv) (fn : Function) (bls : List (List String)) :
    List String :=
    (indentStr fe.indent ++ (("let cfg " ++ printQName fe fn.name ++ " ") ++
     ((if fn.args.isEmpty then "()" else "") ++
      (String.join (fn.args.map (fun a =>
        "(o_" ++ a.1 ++ " : " ++ printType fe a.2 ++ ")")) ++
       (" : " ++ printType fe fn.retty))))) ::
    (fn.preconds.map (fun req =>
       indentStr (fe.indent + 2) ++ ("requires \x7b " ++ req ++ " \x7d")) ++
     fn.postconds.map (fun req =>
       indentStr (fe.indent + 2) ++ ("ensures \x7b " ++ req ++ " \x7d")) ++
     [indentStr (fe.indent + 2) ++ "="] ++
     [indentStr fe.indent ++ ("var _0 : " ++ printType fe fn.retty ++ ";")] ++
     fn.args.map (fun a =>
       indentStr fe.indent ++ ("var " ++ a.1 ++ " : " ++ printType fe a.2 ++ ";")) ++
     fn.vars.map (fun a =>
       indentStr fe.indent ++ ("var " ++ a.1 ++ " : " ++ printType fe a.2 ++ ";")) ++
     [indentStr fe.indent ++ "\x7b"] ++
     fn.args.map (fun a =>
       indentStr (fe.indent + 2) ++ (a.1 ++ " <- o_" ++ a.1 ++ ";")) ++
     [indentStr (fe.indent + 2) ++ "goto BB0;"] ++
     [indentStr fe.indent ++ "\x7d"] ++
     bls.flatten)

/-- The lines of a printed function. -/
def functionLines (fe : FormatEnv) (fn : Function) : Option (List String) :=
  (optionList (blockLines fe) fn.blocks).map (functionLinesOf fe fn)

/-- The lines of a printed type declaration. -/
def tyDeclLines (fe : FormatEnv) (d : TyDecl) : List String :=
  (indentStr fe.indent ++
    ("type " ++ printQName fe d.ty_name ++ " " ++ sepBy " " d.ty_params ++ " =")) ::
  d.ty_constructors.map (fun c =>
    indentStr (fe.indent + 2) ++
      (if c.2.isEmpty then "  | " ++ c.1
       else "  | " ++ c.1 ++ "(" ++
         sepBy ", " (printTypeList ⟨fe.scope, fe.indent + 2⟩ c.2) ++ ")"))

/-- Per line, the indent the environment prescribes for a terminator. -/
def terminatorIndents (n : Nat) : Terminator → List Nat
  | .Switch _ brs => n :: (List.replicate brs.length (n + 2) ++ [n + 2])
  | _ => [n]

/-- Per line, the indent the environment prescribes for a block. -/
def blockIndents (n : Nat) (b : Block) : List Nat :=
  n :: (List.replicate b.statements.length (n + 2) ++
        terminatorIndents (n + 2) b.terminator ++ [n])

/-- Per line, the indent the environment prescribes for a function. -/
def functionIndents (n : Nat) (fn : Function) : List Nat :=
  n :: (List.replicate fn.preconds.length (n + 2) ++
        List.replicate fn.postconds.length (n + 2) ++
        [n + 2] ++ [n] ++
        List.replicate fn.args.length n ++
        List.replicate fn.vars.length n ++
        [n] ++
        List.replicate fn.args.length (n + 2) ++
        [n + 2] ++ [n] ++
        (fn.blocks.map (blockIndents n)).flatten)

/-! ## Single-line wellformedness

The indentation claim concerns the geometry of emitted lines, so it is
stated for inputs whose embedded fragments print with no newline character
and whose line-initial names do not begin with a space. -/

/-- No newline character occurs in the string. -/
def noNL (s : String) : Bool := s.data.all (fun c => !(c == Char.ofNat 10))

/-- The number of leading space characters. -/
def leadingSpaces (s : String) : Nat := (s.data.takeWhile (fun c => c == ' ')).length

/-- Nonempty and not beginning with a space. -/
def headNotSpace (s : String) : Bool := !(s.data.headD (' ') == ' ')

/-- The render succeeded and contains no newline. -/
def optNoNL : Option String → Bool
  | none => false
  | some s => noNL s

/-- The statement's fragments print on one line. -/
def wfStatement (fe : FormatEnv) (s : Statement) : Bool :=
  match s with
  | .Assign lhs rhs => headNotSpace lhs && noNL lhs && optNoNL (printExp fe rhs)
  | .Freeze loc => noNL loc
  | .Invariant nm e => noNL nm && optNoNL (printExp fe e)

/-- The terminator's fragments print on one line. -/
def wfTerminator (fe : FormatEnv) (t : Terminator) : Bool :=
  match t with
  | .Switch discr brs =>
      optNoNL (printExp fe discr) && brs.all (fun br => noNL (printPattern br.1))
  | _ => true

/-- The block's fragments print on one line each. -/
def wfBlock (fe : FormatEnv) (b : Block) : Bool :=
  b.statements.all (wfStatement ⟨fe.scope, fe.indent + 2⟩) &&
  wfTerminator ⟨fe.scope, fe.indent + 2⟩ b.terminator

/-- The function's fragments print on one line each. -/
def wfFunction (fe : FormatEnv) (fn : Function) : Bool :=
  noNL (printQName fe fn.name) && noNL (printType fe fn.retty) &&
  fn.args.all (fun a => headNotSpace a.1 && noNL a.1 && noNL (printType fe a.2)) &&
  fn.vars.all (fun a => noNL a.1 && noNL (printType fe a.2)) &&
  fn.preconds.all noNL && fn.postconds.all noNL &&
  fn.blocks.all (wfBlock fe)

/-- The type declaration's fragments print on one line each. -/
def wfTyDecl (fe : FormatEnv) (d : TyDecl) : Bool :=
  noNL (printQName fe d.ty_name) && d.ty_params.all noNL &&
  d.ty_constructors.all (fun c =>
    noNL c.1 && (printTypeList ⟨fe.scope, fe.indent + 2⟩ c.2).all noNL)

/-! ## Concrete inputs used by the scenario claims -/

/-- The root environment: no open scope, no indentation. -/
def fe0 : FormatEnv := ⟨[], 0⟩

/-- The `uint32` type. -/
def u32 : Ty := Ty.Uint UintTy.U32

/-- The spec scenario's `add` function. -/
def addFn : Function :=
  ⟨⟨[], ["add"]⟩,
   [("x", u32), ("y", u32)],
   u32, [], [],
   [("z", u32)],
   [⟨⟨0⟩,
     [Statement.Assign ("z")
       (Exp.BinaryOp (FullBinOp.Other BinOp.Add) (Exp.Var ("x")) (Exp.Var ("y")))],
     Terminator.Return⟩]⟩

/-- The spec scenario's `5 - a / b` expression. -/
def subDivExp : Exp :=
  Exp.BinaryOp (FullBinOp.Other BinOp.Sub) (Exp.Const ⟨"5"⟩)
    (Exp.BinaryOp (FullBinOp.Other BinOp.Div) (Exp.Var ("a")) (Exp.Var ("b")))

/-- The spec scenario's two-armed switch terminator. -/
def switchEx : Terminator :=
  Terminator.Switch (Exp.Var ("flag"))
    [(Pattern.ConsP ("True") [], ⟨1⟩), (Pattern.ConsP ("False") [], ⟨2⟩)]

/-- A one-constructor type declaration. -/
def tyDeclEx : TyDecl := ⟨⟨[], ["t"]⟩, [], [("A", [])]⟩

/-- Reassemble lines into the printed text: every line ends with a newline. -/
def joinLines (L : List String) : String := String.join (L.map (fun l => l ++ "\n"))

/-! ## String and list helper lemmas -/

theorem strFoldl_append (l : List String) :
    ∀ a : String, l.foldl (fun r s => r ++ s) a = a ++ l.foldl (fun r s => r ++ s) "" := by
  induction l with
  | nil => intro a; rw [List.foldl_nil, List.foldl_nil, String.append_empty]
  | cons s ss ih =>
      intro a
      simp only [List.foldl_cons]
      rw [ih (a ++ s), ih ("" ++ s), String.empty_append, String.append_assoc]

theorem strJoin_cons (s : String) (l : List String) :
    String.join (s :: l) = s ++ String.join l := by
  show (s :: l).foldl (fun r s => r ++ s) "" = _
  simp only [List.foldl_cons]
  rw [strFoldl_append l ("" ++ s), String.empty_append]
  rfl

theorem strJoin_append (l₁ l₂ : List String) :
    String.join (l₁ ++ l₂) = String.join l₁ ++ String.join l₂ := by
  induction l₁ with
  | nil => rw [List.nil_append]; exact (String.empty_append _).symm
  | cons s ss ih =>
      rw [List.cons_append, strJoin_cons, strJoin_cons, ih, String.append_assoc]

theorem indentStr_add (a b : Nat) : indentStr (a + b) = indentStr a ++ indentStr b := by
  apply String.ext
  rw [String.data_append]
  show List.replicate (a + b) (' ') = List.replicate a (' ') ++ List.replicate b (' ')
  rw [List.replicate_add]

theorem leadingSpaces_indentStr (n : Nat) (s : String) :
    leadingSpaces (indentStr n ++ s) = n + leadingSpaces s := by
  unfold leadingSpaces indentStr
  rw [String.data_append]
  show ((List.replicate n (' ') ++ s.data).takeWhile _).length = _
  induction n with
  | zero => simp
  | succ n ih =>
      rw [List.replicate_succ, List.cons_append, List.takeWhile_cons]
      simp only [List.length_cons, ih, beq_self_eq_true, if_true]
      omega

theorem headNotSpace_append (s t : String) (h : headNotSpace s = true) :
    headNotSpace (s ++ t) = true := by
  unfold headNotSpace at h ⊢
  rw [String.data_append]
  cases hd : s.data with
  | nil => rw [hd] at h; exact absurd h (by decide)
  | cons c cs => rw [hd] at h; simpa using h

theorem leadingSpaces_of_headNotSpace (s : String) (h : headNotSpace s = true) :
    leadingSpaces s = 0 := by
  unfold headNotSpace at h
  unfold leadingSpaces
  cases hd : s.data with
  | nil => simp
  | cons c cs =>
      rw [hd] at h
      rw [List.takeWhile_cons]
      simp only [List.headD_cons, Bool.not_eq_true'] at h
      simp [h]

theorem noNL_append (s t : String) : noNL (s ++ t) = (noNL s && noNL t) := by
  unfold noNL
  rw [String.data_append, List.all_append]

theorem noNL_indentStr (n : Nat) : noNL (indentStr n) = true := by
  unfold noNL indentStr
  show (List.replicate n (' ')).all _ = true
  rw [List.all_replicate]
  split <;> decide

theorem noNL_join (l : List String) (h : ∀ s ∈ l, noNL s = true) :
    noNL (String.join l) = true := by
  induction l with
  | nil => decide
  | cons s ss ih =>
      rw [strJoin_cons, noNL_append, h s (by simp),
        ih (fun x hx => h x (List.mem_cons_of_mem _ hx))]
      rfl

theorem noNL_sepBy (sep : String) (l : List String) (hsep : noNL sep = true)
    (h : ∀ s ∈ l, noNL s = true) : noNL (sepBy sep l) = true := by
  induction l with
  | nil => exact rfl
  | cons s ss ih =>
      cases ss with
      | nil => exact h s (by simp)
      | cons s' ss' =>
          show noNL (s ++ sep ++ sepBy sep (s' :: ss')) = true
          rw [noNL_append, noNL_append, h s (by simp), hsep,
            ih (fun x hx => h x (List.mem_cons_of_mem _ hx))]
          rfl

theorem digitChar_ne_nl (d : Nat) : Nat.digitChar d ≠ Char.ofNat 10 := by
  match d with
  | 0 | 1 | 2 | 3 | 4 | 5 | 6 | 7 | 8 | 9 | 10 | 11 | 12 | 13 | 14 | 15 => decide
  | n + 16 =>
      unfold Nat.digitChar
      iterate 16 rw [if_neg (by omega)]
      decide

theorem toDigitsCore_no_nl (fuel : Nat) :
    ∀ (n : Nat) (acc : List Char),
      acc.all (fun c => !(c == Char.ofNat 10)) = true →
      (Nat.toDigitsCore 10 fuel n acc).all (fun c => !(c == Char.ofNat 10)) = true := by
  induction fuel with
  | zero => intro n acc h; simpa [Nat.toDigitsCore] using h
  | succ fuel ih =>
      intro n acc h
      rw [Nat.toDigitsCore]
      split
      case isTrue =>
          simp only [List.all_cons, h, Bool.and_true]
          simp [digitChar_ne_nl]
      case isFalse =>
          apply ih
          simp only [List.all_cons, h, Bool.and_true]
          simp [digitChar_ne_nl]

theorem noNL_natRepr (n : Nat) : noNL (Nat.repr n) = true := by
  unfold noNL Nat.repr Nat.toDigits
  show (List.asString _).data.all _ = true
  rw [show ∀ l : List Char, (List.asString l).data = l from fun _ => rfl]
  exact toDigitsCore_no_nl _ _ _ (by decide)

theorem noNL_printBlockId (b : BlockId) : noNL (printBlockId b) = true := by
  unfold printBlockId
  rw [noNL_append, noNL_natRepr]
  decide

theorem map_const_of_mem {α β : Type} (l : List α) (f : α → β) (b : β)
    (h : ∀ a ∈ l, f a = b) : l.map f = List.replicate l.length b := by
  induction l with
  | nil => rfl
  | cons a as ih =>
      rw [List.map_cons, h a (by simp), List.length_cons, List.replicate_succ,
        ih (fun x hx => h x (List.mem_cons_of_mem _ hx))]

theorem optionList_forall₂ {α β : Type} (f : α → Option β) (P : α → β → Prop)
    (l : List α) (h : ∀ a ∈ l, ∃ r, f a = some r ∧ P a r) :
    ∃ rs, optionList f l = some rs ∧ List.Forall₂ P l rs := by
  induction l with
  | nil => exact ⟨[], rfl, List.Forall₂.nil⟩
  | cons a as ih =>
      obtain ⟨r, hr, hp⟩ := h a (by simp)
      obtain ⟨rs, hrs, hf⟩ := ih (fun x hx => h x (List.mem_cons_of_mem _ hx))
      exact ⟨r :: rs, by simp [optionList, hr, hrs], List.Forall₂.cons hp hf⟩

theorem optionList_of_forall₂ {α β γ : Type} (g : α → Option γ) (h : β → γ)
    (l : List α) (rs : List β)
    (hf : List.Forall₂ (fun a r => g a = some (h r)) l rs) :
    optionList g l = some (rs.map h) := by
  induction hf with
  | nil => rfl
  | cons hab hrest ih => simp [optionList, hab, ih]

theorem strJoin_flatten_map (g : String → String) (ll : List (List String)) :
    String.join (ll.map (fun L => String.join (L.map g))) =
      String.join (ll.flatten.map g) := by
  induction ll with
  | nil => rfl
  | cons L ls ih =>
      simp only [List.map_cons, List.flatten_cons, List.map_append, strJoin_append,
        strJoin_cons, ih]

theorem flatten_map_of_forall₂ {α : Type} (f : String → Nat) (k : α → List Nat)
    (l : List α) (rs : List (List String))
    (hf : List.Forall₂ (fun a L => L.map f = k a) l rs) :
    rs.flatten.map f = (l.map k).flatten := by
  induction hf with
  | nil => rfl
  | cons hab hrest ih =>
      simp only [List.flatten_cons, List.map_append, List.map_cons, hab, ih]

theorem joinLines_nil : joinLines [] = "" := rfl

theorem joinLines_cons (s : String) (L : List String) :
    joinLines (s :: L) = s ++ "\n" ++ joinLines L := by
  unfold joinLines
  rw [List.map_cons, strJoin_cons]

theorem joinLines_append (L₁ L₂ : List String) :
    joinLines (L₁ ++ L₂) = joinLines L₁ ++ joinLines L₂ := by
  unfold joinLines
  rw [List.map_append, strJoin_append]

theorem joinLines_single (s : String) : joinLines [s] = s ++ "\n" := by
  rw [joinLines_cons, joinLines_nil, String.append_empty]

theorem joinLines_map {α : Type} (f : α → String) (l : List α) :
    joinLines (l.map f) = String.join (l.map (fun a => f a ++ "\n")) := by
  unfold joinLines
  rw [List.map_map]
  rfl

theorem strJoin_map_joinLines (ll : List (List String)) :
    String.join (ll.map joinLines) = joinLines ll.flatten := by
  unfold joinLines
  exact strJoin_flatten_map _ ll

theorem noNL_app (s t : String) (hs : noNL s = true) (ht : noNL t = true) :
    noNL (s ++ t) = true := by
  rw [noNL_append, hs, ht]
  rfl

theorem leadingSpaces_line (n : Nat) (c : String) (h : headNotSpace c = true) :
    leadingSpaces (indentStr n ++ c) = n := by
  rw [leadingSpaces_indentStr, leadingSpaces_of_headNotSpace _ h]
  rfl

theorem noNL_line (n : Nat) (c : String) (h : noNL c = true) :
    noNL (indentStr n ++ c) = true :=
  noNL_app _ _ (noNL_indentStr n) h

/-- Every printed statement is its indentation followed by newline-free
content that does not begin with a space. -/
theorem printStatement_line (fe : FormatEnv) (s : Statement)
    (h : wfStatement fe s = true) :
    ∃ c, printStatement fe s = some (indentStr fe.indent ++ c) ∧
      headNotSpace c = true ∧ noNL c = true := by
  cases s with
  | Assign lhs rhs =>
      unfold wfStatement at h
      rw [Bool.and_eq_true, Bool.and_eq_true] at h
      obtain ⟨⟨h1, h2⟩, h3⟩ := h
      cases hr : printExp fe rhs with
      | none => rw [hr] at h3; exact absurd h3 (by decide)
      | some r =>
          rw [hr] at h3
          refine ⟨lhs ++ " <- " ++ r, ?_, ?_, ?_⟩
          · show (printExp fe rhs).map _ = _
            rw [hr]
            rfl
          · exact headNotSpace_append _ _ (headNotSpace_append _ _ h1)
          · exact noNL_app _ _ (noNL_app _ _ h2 (by decide)) h3
  | Freeze loc =>
      unfold wfStatement at h
      refine ⟨"assume \x7b ^ " ++ loc ++ " = * " ++ loc ++ " \x7d", rfl, ?_, ?_⟩
      · exact headNotSpace_append _ _ (headNotSpace_append _ _
          (headNotSpace_append _ _ (headNotSpace_append _ _ (by decide))))
      · exact noNL_app _ _ (noNL_app _ _ (noNL_app _ _ (noNL_app _ _ (by decide) h)
          (by decide)) h) (by decide)
  | Invariant nm e =>
      unfold wfStatement at h
      rw [Bool.and_eq_true] at h
      obtain ⟨h1, h2⟩ := h
      cases hr : printExp fe e with
      | none => rw [hr] at h2; exact absurd h2 (by decide)
      | some r =>
          rw [hr] at h2
          refine ⟨"invariant " ++ nm ++ " \x7b " ++ r ++ " \x7d", ?_, ?_, ?_⟩
          · show (printExp fe e).map _ = _
            rw [hr]
            rfl
          · exact headNotSpace_append _ _ (headNotSpace_append _ _
              (headNotSpace_append _ _ (headNotSpace_append _ _ (by decide))))
          · exact noNL_app _ _ (noNL_app _ _ (noNL_app _ _ (noNL_app _ _ (by decide) h1)
              (by decide)) h2) (by decide)

end Mlcfg

namespace Mlcfg

/-- The printed terminator is exactly its lines, each newline-terminated;
the lines are newline-free and carry the prescribed indentation. -/
theorem terminatorLines_spec (fe : FormatEnv) (t : Terminator)
    (h : wfTerminator fe t = true) :
    ∃ L, terminatorLines fe t = some L ∧
      printTerminator fe t = some (joinLines L) ∧
      (∀ l ∈ L, noNL l = true) ∧
      L.map leadingSpaces = terminatorIndents fe.indent t := by
  cases t with
  | Goto tgt =>
      refine ⟨[indentStr fe.indent ++ ("goto " ++ printBlockId tgt)], rfl, ?_, ?_, ?_⟩
      · rw [joinLines_single]
        rfl
      · intro l hl
        rw [List.mem_singleton] at hl
        subst hl
        exact noNL_line _ _ (noNL_app _ _ (by decide) (noNL_printBlockId tgt))
      · show [leadingSpaces _] = [fe.indent]
        rw [leadingSpaces_line _ _ (headNotSpace_append _ _ (by decide))]
  | Absurd =>
      refine ⟨[indentStr fe.indent ++ "absurd"], rfl, ?_, ?_, ?_⟩
      · rw [joinLines_single]
        rfl
      · intro l hl
        rw [List.mem_singleton] at hl
        subst hl
        exact noNL_line _ _ (by decide)
      · show [leadingSpaces _] = [fe.indent]
        rw [leadingSpaces_line _ _ (by decide)]
  | Return =>
      refine ⟨[indentStr fe.indent ++ "_0"], rfl, ?_, ?_, ?_⟩
      · rw [joinLines_single]
        rfl
      · intro l hl
        rw [List.mem_singleton] at hl
        subst hl
        exact noNL_line _ _ (by decide)
      · show [leadingSpaces _] = [fe.indent]
        rw [leadingSpaces_line _ _ (by decide)]
  | Switch discr brs =>
      unfold wfTerminator at h
      rw [Bool.and_eq_true] at h
      obtain ⟨hd', harms⟩ := h
      cases hdd : printExp fe discr with
      | none => rw [hdd] at hd'; exact absurd hd' (by decide)
      | some d =>
          rw [hdd] at hd'
          have hnd : noNL d = true := hd'
          refine ⟨(indentStr fe.indent ++ ("switch (" ++ d ++ ")")) ::
            (brs.map (fun br =>
              indentStr (fe.indent + 2) ++
                ("| " ++ printPattern br.1 ++ " -> goto " ++ printBlockId br.2)) ++
             [indentStr (fe.indent + 2) ++ "end"]), ?_, ?_, ?_, ?_⟩
          · show (printExp fe discr).map _ = _
            rw [hdd]
            rfl
          · show (printExp fe discr).map _ = _
            rw [hdd]
            show some _ = some _
            congr 1
            simp only [joinLines_cons, joinLines_append, joinLines_single, joinLines_map,
              joinLines_nil, String.append_empty, String.append_assoc]
          · intro l hl
            simp only [List.mem_cons, List.mem_append, List.mem_map,
              List.not_mem_nil, or_false] at hl
            rcases hl with rfl | ⟨br, hbr, rfl⟩ | rfl
            · exact noNL_line _ _ (noNL_app _ _ (noNL_app _ _ (by decide) hnd) (by decide))
            · have hp : noNL (printPattern br.1) = true := by
                have := List.all_eq_true.mp harms br hbr
                simpa using this
              exact noNL_line _ _ (noNL_app _ _ (noNL_app _ _ (noNL_app _ _ (by decide) hp)
                (by decide)) (noNL_printBlockId br.2))
            · exact noNL_line _ _ (by decide)
          · show List.map leadingSpaces _ = terminatorIndents fe.indent (.Switch discr brs)
            unfold terminatorIndents
            rw [List.map_cons, List.map_append, List.map_map]
            congr 1
            · exact leadingSpaces_line _ _ (headNotSpace_append _ _
                (headNotSpace_append _ _ (by decide)))
            · congr 1
              · exact map_const_of_mem brs _ _ (fun br _ =>
                  leadingSpaces_line _ _ (headNotSpace_append _ _
                    (headNotSpace_append _ _ (headNotSpace_append _ _ (by decide)))))
              · show [leadingSpaces _] = [fe.indent + 2]
                rw [leadingSpaces_line _ _ (by decide)]

end Mlcfg

namespace Mlcfg

theorem forall₂_mem_right {α β : Type} {P : α → β → Prop} {l : List α} {rs : List β}
    (hf : List.Forall₂ P l rs) : ∀ r ∈ rs, ∃ a ∈ l, P a r := by
  induction hf with
  | nil => intro r hr; exact absurd hr (List.not_mem_nil r)
  | cons hab hrest ih =>
      intro r hr
      rw [List.mem_cons] at hr
      rcases hr with rfl | hr
      · exact ⟨_, by simp, hab⟩
      · obtain ⟨a, ha, hp⟩ := ih r hr
        exact ⟨a, List.mem_cons_of_mem _ ha, hp⟩

theorem headNotSpace_printBlockId (b : BlockId) : headNotSpace (printBlockId b) = true := by
  unfold printBlockId
  exact headNotSpace_append _ _ (by decide)

/-- The printed block is exactly its lines, each newline-terminated; the
lines are newline-free and carry the prescribed indentation. -/
theorem blockLines_spec (fe : FormatEnv) (b : Block) (h : wfBlock fe b = true) :
    ∃ L, blockLines fe b = some L ∧
      printBlock fe b = some (joinLines L) ∧
      (∀ l ∈ L, noNL l = true) ∧
      L.map leadingSpaces = blockIndents fe.indent b := by
  unfold wfBlock at h
  rw [Bool.and_eq_true] at h
  obtain ⟨hstmts, hterm⟩ := h
  obtain ⟨ss, hss, hf⟩ := optionList_forall₂ (printStatement ⟨fe.scope, fe.indent + 2⟩)
    (fun _ r => ∃ c, r = indentStr (fe.indent + 2) ++ c ∧
      headNotSpace c = true ∧ noNL c = true)
    b.statements
    (fun st hst => by
      obtain ⟨c, hc, hh, hn⟩ := printStatement_line ⟨fe.scope, fe.indent + 2⟩ st
        (List.all_eq_true.mp hstmts st hst)
      exact ⟨indentStr (fe.indent + 2) ++ c, hc, c, rfl, hh, hn⟩)
  obtain ⟨Lt, hLt, hPt, hNt, hIt⟩ :=
    terminatorLines_spec ⟨fe.scope, fe.indent + 2⟩ b.terminator hterm
  refine ⟨(indentStr fe.indent ++ (printBlockId b.label ++ " \x7b")) ::
    (ss.map (fun s => s ++ ";") ++ Lt ++ [indentStr fe.indent ++ "\x7d"]),
    ?_, ?_, ?_, ?_⟩
  · unfold blockLines
    rw [hss, hLt]
    rfl
  · unfold printBlock
    rw [hss]
    show (printTerminator _ _).map _ = _
    rw [hPt]
    show some _ = some _
    congr 1
    simp only [joinLines_cons, joinLines_append, joinLines_single, joinLines_map,
      joinLines_nil, String.append_empty, String.append_assoc]
  · intro l hl
    simp only [List.mem_cons, List.mem_append, List.mem_map,
      List.not_mem_nil, or_false] at hl
    rcases hl with rfl | ⟨⟨s, hs, rfl⟩ | hmem⟩ | rfl
    · exact noNL_line _ _ (noNL_app _ _ (noNL_printBlockId b.label) (by decide))
    · obtain ⟨st, hst, c, rfl, hh, hn⟩ := forall₂_mem_right hf s hs
      rw [String.append_assoc]
      exact noNL_line _ _ (noNL_app _ _ hn (by decide))
    · exact hNt l hmem
    · exact noNL_line _ _ (by decide)
  · show List.map leadingSpaces _ = blockIndents fe.indent b
    unfold blockIndents
    have harg : List.map leadingSpaces (ss.map (fun s => s ++ ";")) =
        List.replicate b.statements.length (fe.indent + 2) := by
      rw [List.map_map, show b.statements.length = ss.length from hf.length_eq]
      exact map_const_of_mem ss _ _ (fun s hs => by
        obtain ⟨st, hst, c, rfl, hh, hn⟩ := forall₂_mem_right hf s hs
        show leadingSpaces ((indentStr (fe.indent + 2) ++ c) ++ ";") = fe.indent + 2
        rw [String.append_assoc]
        exact leadingSpaces_line _ _ (headNotSpace_append _ _ hh))
    rw [List.map_cons, List.map_append, List.map_append, harg, hIt,
      leadingSpaces_line _ _ (headNotSpace_append _ _ (headNotSpace_printBlockId _))]
    show _ = _ :: (_ ++ _ ++ [fe.indent])
    rw [List.map_cons, List.map_nil, leadingSpaces_line _ _ (by decide)]

end Mlcfg

namespace Mlcfg

end Mlcfg

namespace Mlcfg

/-- Assembling the printed blocks into the function body produces exactly the
function's lines, each newline-terminated. -/
theorem printFunctionOf_joinLines (fe : FormatEnv) (fn : Function)
    (bls : List (List String)) :
    printFunctionOf fe fn (bls.map joinLines) = joinLines (functionLinesOf fe fn bls) := by
  unfold printFunctionOf functionLinesOf
  simp only [joinLines_cons, joinLines_append, joinLines_single, joinLines_map,
    joinLines_nil, strJoin_map_joinLines, String.append_empty, String.append_assoc]

end Mlcfg

namespace Mlcfg

/-- Every line of a printed function is newline-free, provided its fragments
are. -/
theorem functionLinesOf_noNL (fe : FormatEnv) (fn : Function) (bls : List (List String))
    (hname : noNL (printQName fe fn.name) = true)
    (hret : noNL (printType fe fn.retty) = true)
    (hargs : ∀ a ∈ fn.args,
      (headNotSpace a.1 && noNL a.1 && noNL (printType fe a.2)) = true)
    (hvars : ∀ a ∈ fn.vars, (noNL a.1 && noNL (printType fe a.2)) = true)
    (hpre : ∀ r ∈ fn.preconds, noNL r = true)
    (hpost : ∀ r ∈ fn.postconds, noNL r = true)
    (hbls : ∀ L ∈ bls, ∀ l ∈ L, noNL l = true) :
    ∀ l ∈ functionLinesOf fe fn bls, noNL l = true := by
  have hIf : noNL (if fn.args.isEmpty then "()" else "") = true := by
    cases fn.args.isEmpty <;> decide
  intro l hl
  unfold functionLinesOf at hl
  simp only [List.mem_cons, List.mem_append, List.mem_map,
    List.not_mem_nil, or_false] at hl
  rcases hl with rfl | hl
  · refine noNL_line _ _ (noNL_app _ _
      (noNL_app _ _ (noNL_app _ _ (by decide) hname) (by decide)) ?_)
    refine noNL_app _ _ hIf (noNL_app _ _ ?_ (noNL_app _ _ (by decide) hret))
    refine noNL_join _ (fun p hp => ?_)
    rw [List.mem_map] at hp
    obtain ⟨a, ha, rfl⟩ := hp
    obtain ⟨⟨_, hn1⟩, hn2⟩ := by
      have := hargs a ha
      simpa only [Bool.and_eq_true] using this
    exact noNL_app _ _
      (noNL_app _ _ (noNL_app _ _ (noNL_app _ _ (by decide) hn1) (by decide)) hn2)
      (by decide)
  · rcases hl with ⟨⟨⟨⟨⟨⟨⟨⟨⟨⟨a, ha, rfl⟩ | ⟨a, ha, rfl⟩⟩ | rfl⟩ | rfl⟩ |
      ⟨a, ha, rfl⟩⟩ | ⟨a, ha, rfl⟩⟩ | rfl⟩ | ⟨a, ha, rfl⟩⟩ | rfl⟩ | rfl⟩ | hfl
    · exact noNL_line _ _ (noNL_app _ _ (noNL_app _ _ (by decide) (hpre a ha)) (by decide))
    · exact noNL_line _ _ (noNL_app _ _ (noNL_app _ _ (by decide) (hpost a ha)) (by decide))
    · exact noNL_line _ _ (by decide)
    · exact noNL_line _ _ (noNL_app _ _ (noNL_app _ _ (by decide) hret) (by decide))
    · obtain ⟨⟨_, hn1⟩, hn2⟩ := by
        have := hargs a ha
        simpa only [Bool.and_eq_true] using this
      exact noNL_line _ _ (noNL_app _ _
        (noNL_app _ _ (noNL_app _ _ (noNL_app _ _ (by decide) hn1) (by decide)) hn2)
        (by decide))
    · obtain ⟨hn1, hn2⟩ := by
        have := hvars a ha
        simpa only [Bool.and_eq_true] using this
      exact noNL_line _ _ (noNL_app _ _
        (noNL_app _ _ (noNL_app _ _ (noNL_app _ _ (by decide) hn1) (by decide)) hn2)
        (by decide))
    · exact noNL_line _ _ (by decide)
    · obtain ⟨⟨_, hn1⟩, _⟩ := by
        have := hargs a ha
        simpa only [Bool.and_eq_true] using this
      exact noNL_line _ _ (noNL_app _ _ (noNL_app _ _ (noNL_app _ _ hn1 (by decide)) hn1)
        (by decide))
    · exact noNL_line _ _ (by decide)
    · exact noNL_line _ _ (by decide)
    · rw [List.mem_flatten] at hfl
      obtain ⟨L', hL', hlL⟩ := hfl
      exact hbls L' hL' l hlL

end Mlcfg

namespace Mlcfg

/-- The leading-space counts of a printed function's lines are the base
indent plus the nested `indent(2, ..)` deltas. -/
theorem functionLinesOf_leading (fe : FormatEnv) (fn : Function)
    (bls : List (List String))
    (hargs : ∀ a ∈ fn.args, headNotSpace a.1 = true)
    (hflat : List.map leadingSpaces bls.flatten =
      (fn.blocks.map (blockIndents fe.indent)).flatten) :
    (functionLinesOf fe fn bls).map leadingSpaces = functionIndents fe.indent fn := by
  unfold functionLinesOf functionIndents
  have hpre' : List.map leadingSpaces (fn.preconds.map (fun req =>
      indentStr (fe.indent + 2) ++ ("requires \x7b " ++ req ++ " \x7d"))) =
      List.replicate fn.preconds.length (fe.indent + 2) := by
    rw [List.map_map]
    exact map_const_of_mem _ _ _ (fun a _ => leadingSpaces_line _ _
      (headNotSpace_append _ _ (headNotSpace_append _ _ (by decide))))
  have hpost' : List.map leadingSpaces (fn.postconds.map (fun req =>
      indentStr (fe.indent + 2) ++ ("ensures \x7b " ++ req ++ " \x7d"))) =
      List.replicate fn.postconds.length (fe.indent + 2) := by
    rw [List.map_map]
    exact map_const_of_mem _ _ _ (fun a _ => leadingSpaces_line _ _
      (headNotSpace_append _ _ (headNotSpace_append _ _ (by decide))))
  have hargvars : List.map leadingSpaces (fn.args.map (fun a =>
      indentStr fe.indent ++ ("var " ++ a.1 ++ " : " ++ printType fe a.2 ++ ";"))) =
      List.replicate fn.args.length fe.indent := by
    rw [List.map_map]
    exact map_const_of_mem _ _ _ (fun a _ => leadingSpaces_line _ _
      (headNotSpace_append _ _ (headNotSpace_append _ _
        (headNotSpace_append _ _ (headNotSpace_append _ _ (by decide))))))
  have hvarvars : List.map leadingSpaces (fn.vars.map (fun a =>
      indentStr fe.indent ++ ("var " ++ a.1 ++ " : " ++ printType fe a.2 ++ ";"))) =
      List.replicate fn.vars.length fe.indent := by
    rw [List.map_map]
    exact map_const_of_mem _ _ _ (fun a _ => leadingSpaces_line _ _
      (headNotSpace_append _ _ (headNotSpace_append _ _
        (headNotSpace_append _ _ (headNotSpace_append _ _ (by decide))))))
  have hcopies : List.map leadingSpaces (fn.args.map (fun a =>
      indentStr (fe.indent + 2) ++ (a.1 ++ " <- o_" ++ a.1 ++ ";"))) =
      List.replicate fn.args.length (fe.indent + 2) := by
    rw [List.map_map]
    refine map_const_of_mem _ _ _ (fun a ha => ?_)
    exact leadingSpaces_line _ _ (headNotSpace_append _ _
      (headNotSpace_append _ _ (headNotSpace_append _ _ (hargs a ha))))
  have hhdr : leadingSpaces (indentStr fe.indent ++
      (("let cfg " ++ printQName fe fn.name ++ " ") ++
       ((if fn.args.isEmpty then "()" else "") ++
        (String.join (fn.args.map (fun a =>
          "(o_" ++ a.1 ++ " : " ++ printType fe a.2 ++ ")")) ++
         (" : " ++ printType fe fn.retty))))) = fe.indent :=
    leadingSpaces_line _ _ (headNotSpace_append _ _
      (headNotSpace_append _ _ (headNotSpace_append _ _ (by decide))))
  simp only [List.map_cons, List.map_append, List.map_nil]
  rw [hhdr, hpre', hpost', hargvars, hvarvars, hcopies, hflat]
  rw [leadingSpaces_line (fe.indent + 2) ("=") (by decide)]
  rw [leadingSpaces_line _ _ (headNotSpace_append _ _ (headNotSpace_append _ _
    (by decide : headNotSpace ("var _0 : ") = true)))]
  rw [leadingSpaces_line (fe.indent) ("\x7b") (by decide)]
  rw [leadingSpaces_line (fe.indent + 2) ("goto BB0;") (by decide)]
  rw [leadingSpaces_line (fe.indent) ("\x7d") (by decide)]

end Mlcfg

namespace Mlcfg

/-- The printed function is exactly its lines, each newline-terminated; the
lines are newline-free and carry the prescribed indentation. -/
theorem functionLines_spec (fe : FormatEnv) (fn : Function)
    (h : wfFunction fe fn = true) :
    ∃ L, functionLines fe fn = some L ∧
      printFunction fe fn = some (joinLines L) ∧
      (∀ l ∈ L, noNL l = true) ∧
      L.map leadingSpaces = functionIndents fe.indent fn := by
  unfold wfFunction at h
  simp only [Bool.and_eq_true] at h
  obtain ⟨⟨⟨⟨⟨⟨hname, hret⟩, hargs⟩, hvars⟩, hpre⟩, hpost⟩, hblocks⟩ := h
  obtain ⟨bls, hbls, hfb⟩ := optionList_forall₂ (blockLines fe)
    (fun b L => printBlock fe b = some (joinLines L) ∧
      (∀ l ∈ L, noNL l = true) ∧
      L.map leadingSpaces = blockIndents fe.indent b)
    fn.blocks
    (fun b hb => blockLines_spec fe b (List.all_eq_true.mp hblocks b hb))
  have hpb : optionList (printBlock fe) fn.blocks = some (bls.map joinLines) :=
    optionList_of_forall₂ _ _ _ _ (hfb.imp (fun _ _ hP => hP.1))
  refine ⟨functionLinesOf fe fn bls, ?_, ?_, ?_, ?_⟩
  · unfold functionLines
    rw [hbls]
    rfl
  · unfold printFunction
    rw [hpb]
    show some _ = some _
    rw [printFunctionOf_joinLines]
  · exact functionLinesOf_noNL fe fn bls hname hret
      (fun a ha => List.all_eq_true.mp hargs a ha)
      (fun a ha => List.all_eq_true.mp hvars a ha)
      (fun r hr => List.all_eq_true.mp hpre r hr)
      (fun r hr => List.all_eq_true.mp hpost r hr)
      (fun L hL l hl => by
        obtain ⟨b, hb, hP⟩ := forall₂_mem_right hfb L hL
        exact hP.2.1 l hl)
  · refine functionLinesOf_leading fe fn bls (fun a ha => ?_)
      (flatten_map_of_forall₂ _ _ _ _ (hfb.imp (fun _ _ hP => hP.2.2)))
    have := List.all_eq_true.mp hargs a ha
    simp only [Bool.and_eq_true] at this
    exact this.1.1

end Mlcfg

namespace Mlcfg

theorem takeWhile_append_of_lt {α : Type} (p : α → Bool) (m : List α) :
    ∀ (l : List α), (l.takeWhile p).length < l.length →
      (l ++ m).takeWhile p = l.takeWhile p := by
  intro l
  induction l with
  | nil => intro h; simp at h
  | cons c cs ih =>
      intro h
      rw [List.cons_append, List.takeWhile_cons, List.takeWhile_cons]
      cases hc : p c with
      | false => simp
      | true =>
          simp only [if_true]
          congr 1
          apply ih
          rw [List.takeWhile_cons, hc] at h
          simp only [if_true, List.length_cons] at h
          exact Nat.lt_of_succ_lt_succ h

theorem leadingSpaces_append_of_lt (s t : String) (h : leadingSpaces s < s.length) :
    leadingSpaces (s ++ t) = leadingSpaces s := by
  unfold leadingSpaces at *
  rw [String.data_append]
  show ((s.data ++ t.data).takeWhile _).length = _
  rw [takeWhile_append_of_lt _ t.data s.data h]

end Mlcfg

namespace Mlcfg

/-- The printed type declaration is exactly its lines, each
newline-terminated; the lines are newline-free; the header sits at the base
indent while every constructor line carries the `indent(2, ..)` delta plus
the two literal spaces of the `"  | "` format string. -/
theorem tyDeclLines_spec (fe : FormatEnv) (d : TyDecl) (h : wfTyDecl fe d = true) :
    printTyDecl fe d = joinLines (tyDeclLines fe d) ∧
    (∀ l ∈ tyDeclLines fe d, noNL l = true) ∧
    (tyDeclLines fe d).map leadingSpaces =
      fe.indent :: List.replicate d.ty_constructors.length (fe.indent + 2 + 2) := by
  unfold wfTyDecl at h
  simp only [Bool.and_eq_true] at h
  obtain ⟨⟨hname, hparams⟩, hcons⟩ := h
  refine ⟨?_, ?_, ?_⟩
  · unfold printTyDecl tyDeclLines
    simp only [joinLines_cons, joinLines_map, String.append_assoc]
  · intro l hl
    unfold tyDeclLines at hl
    simp only [List.mem_cons, List.mem_map] at hl
    rcases hl with rfl | ⟨c, hc, rfl⟩
    · refine noNL_line _ _ (noNL_app _ _ (noNL_app _ _
        (noNL_app _ _ (noNL_app _ _ (by decide) hname) (by decide)) ?_) (by decide))
      exact noNL_sepBy _ _ (by decide) (fun p hp => List.all_eq_true.mp hparams p hp)
    · have hc' := List.all_eq_true.mp hcons c hc
      simp only [Bool.and_eq_true] at hc'
      obtain ⟨hn1, hn2⟩ := hc'
      refine noNL_line _ _ ?_
      split
      · exact noNL_app _ _ (by decide) hn1
      · refine noNL_app _ _ (noNL_app _ _
          (noNL_app _ _ (noNL_app _ _ (by decide) hn1) (by decide)) ?_) (by decide)
        exact noNL_sepBy _ _ (by decide) (fun p hp => List.all_eq_true.mp hn2 p hp)
  · unfold tyDeclLines
    rw [List.map_cons, List.map_map]
    congr 1
    · exact leadingSpaces_line _ _ (headNotSpace_append _ _ (headNotSpace_append _ _
        (headNotSpace_append _ _ (headNotSpace_append _ _ (by decide)))))
    · refine map_const_of_mem _ _ _ (fun c hc => ?_)
      show leadingSpaces (indentStr (fe.indent + 2) ++ _) = fe.indent + 2 + 2
      rw [leadingSpaces_indentStr]
      have h2 : ∀ x : String, leadingSpaces ("  | " ++ x) = 2 := fun x => by
        rw [leadingSpaces_append_of_lt _ _ (by decide)]
        decide
      congr 1
      split
      · exact h2 _
      · simp only [String.append_assoc]
        exact h2 _

end Mlcfg

namespace Mlcfg

mutual

/-- Rendering an expression whose operators are all supported never aborts:
the `unreachable!` arm of `bin_op_to_string` is not reached. -/
theorem printExp_isSome (fe : FormatEnv) (e : Exp) (h : opsSupported e = true) :
    (printExp fe e).isSome = true := by
  match e with
  | .Current e =>
      have h1 := printExp_isSome fe e h
      simp [printExp, h1]
  | .Final e =>
      have h1 := printExp_isSome fe e h
      simp [printExp, h1]
  | .Let p a b =>
      have h' : (opsSupported a && opsSupported b) = true := h
      simp only [Bool.and_eq_true] at h'
      have h1 := printExp_isSome fe a h'.1
      have h2 := printExp_isSome fe b h'.2
      obtain ⟨x, hx⟩ := Option.isSome_iff_exists.mp h1
      obtain ⟨y, hy⟩ := Option.isSome_iff_exists.mp h2
      simp [printExp, hx, hy]
  | .Var v => rfl
  | .RecUp r lbl v =>
      have h' : (opsSupported r && opsSupported v) = true := h
      simp only [Bool.and_eq_true] at h'
      have h1 := printExp_isSome fe r h'.1
      have h2 := printExp_isSome fe v h'.2
      obtain ⟨x, hx⟩ := Option.isSome_iff_exists.mp h1
      obtain ⟨y, hy⟩ := Option.isSome_iff_exists.mp h2
      simp [printExp, hx, hy]
  | .Tuple vs =>
      have h1 := printExpList_isSome fe vs h
      obtain ⟨x, hx⟩ := Option.isSome_iff_exists.mp h1
      simp [printExp, hx]
  | .Constructor ctor args =>
      have h1 := printExpList_isSome fe args h
      obtain ⟨x, hx⟩ := Option.isSome_iff_exists.mp h1
      by_cases h0 : args.isEmpty <;> simp [printExp, h0, hx]
  | .BorrowMut e =>
      have h1 := printExp_isSome fe e h
      simp [printExp, h1]
  | .Const c => rfl
  | .BinaryOp op l r =>
      have h' : (supportedOp op && opsSupported l && opsSupported r) = true := h
      simp only [Bool.and_eq_true] at h'
      obtain ⟨⟨hop, hl⟩, hr⟩ := h'
      have h1 := printExp_isSome fe l hl
      have h2 := printExp_isSome fe r hr
      obtain ⟨x, hx⟩ := Option.isSome_iff_exists.mp h1
      obtain ⟨y, hy⟩ := Option.isSome_iff_exists.mp h2
      rcases op with _ | _ | o
      · simp [printExp, binOpToString, hx, hy]
      · simp [printExp, binOpToString, hx, hy]
      · cases o
        all_goals first
          | exact absurd hop (by decide)
          | simp [printExp, binOpToString, hx, hy]
  | .Call fn args =>
      have h1 := printArgs_isSome fe (.Call fn args) args h
      obtain ⟨x, hx⟩ := Option.isSome_iff_exists.mp h1
      simp [printExp, hx]
  | .Verbatim v => rfl
  | .Forall binders e =>
      have h1 := printExp_isSome fe e h
      simp [printExp, h1]
  | .Exists binders e =>
      have h1 := printExp_isSome fe e h
      simp [printExp, h1]
  | .Impl hyp c =>
      have h' : (opsSupported hyp && opsSupported c) = true := h
      simp only [Bool.and_eq_true] at h'
      have h1 := printExp_isSome fe hyp h'.1
      have h2 := printExp_isSome fe c h'.2
      obtain ⟨x, hx⟩ := Option.isSome_iff_exists.mp h1
      obtain ⟨y, hy⟩ := Option.isSome_iff_exists.mp h2
      simp [printExp, hx, hy]

/-- Rendering a list of supported expressions never aborts. -/
theorem printExpList_isSome (fe : FormatEnv) (es : List Exp)
    (h : opsSupportedList es = true) : (printExpList fe es).isSome = true := by
  match es with
  | [] => rfl
  | e :: es =>
      have h' : (opsSupported e && opsSupportedList es) = true := h
      simp only [Bool.and_eq_true] at h'
      have h1 := printExp_isSome fe e h'.1
      have h2 := printExpList_isSome fe es h'.2
      obtain ⟨x, hx⟩ := Option.isSome_iff_exists.mp h1
      obtain ⟨y, hy⟩ := Option.isSome_iff_exists.mp h2
      simp [printExpList, hx, hy]

/-- Rendering a list of supported call arguments never aborts. -/
theorem printArgs_isSome (fe : FormatEnv) (parent : Exp) (es : List Exp)
    (h : opsSupportedList es = true) : (printArgs fe parent es).isSome = true := by
  match es with
  | [] => rfl
  | e :: es =>
      have h' : (opsSupported e && opsSupportedList es) = true := h
      simp only [Bool.and_eq_true] at h'
      have h1 := printExp_isSome fe e h'.1
      have h2 := printArgs_isSome fe parent es h'.2
      obtain ⟨x, hx⟩ := Option.isSome_iff_exists.mp h1
      obtain ⟨y, hy⟩ := Option.isSome_iff_exists.mp h2
      simp [printArgs, hx, hy]

end

end Mlcfg

namespace Mlcfg

theorem printTypeList_eq_map (fe : FormatEnv) (ts : List Ty) :
    printTypeList fe ts = ts.map (printType fe) := by
  induction ts with
  | nil => rfl
  | cons t ts ih => rw [List.map_cons, ← ih]; rfl

/-- Claim C1 (code bug): the qualified-name shortening zips the open scope
with the module path, so every module segment beyond the scope's length is
silently dropped instead of printed. With an empty scope the whole module
path vanishes (`f` instead of `A.B.f`), and with scope `["X"]` the segment
`B` is lost (`A.f` instead of `A.B.f`), contradicting the code's own comment
that only the shared prefix is stripped. -/
theorem qname_shortening_code_bug :
    printQName ⟨[], 0⟩ ⟨["A", "B"], ["f"]⟩ = "f" ∧
    printQName ⟨["X"], 0⟩ ⟨["A", "B"], ["f"]⟩ = "A.f" ∧
    ("f" : String) ≠ "A.B.f" ∧ ("A.f" : String) ≠ "A.B.f" := by decide

set_option maxRecDepth 10000 in
/-- Claim C2 (counterexample): the header of the rendered `add` function
carries no space between the two argument groups — the claimed text with
`(o_x : uint32) (o_y : uint32)` (and without the final newline) is not
produced. -/
theorem function_render_scenario_cex :
    printFunction fe0 addFn ≠
      some ("let cfg add (o_x : uint32) (o_y : uint32) : uint32\n  =\nvar _0 : uint32;\nvar x : uint32;\nvar y : uint32;\nvar z : uint32;\n\x7b\n  x <- o_x;\n  y <- o_y;\n  goto BB0;\n\x7d\nBB0 \x7b\n  z <- x + y;\n  _0\n\x7d") := by
  decide

set_option maxRecDepth 10000 in
/-- Claim C2 (amended): the `add` scenario renders exactly as claimed except
that consecutive argument groups are adjacent (no separating space — the
format string `"(o_{} : {})"` is written once per argument with no
separator) and the output ends with a newline after the final `}`. -/
theorem function_render_scenario :
    printFunction fe0 addFn =
      some ("let cfg add (o_x : uint32)(o_y : uint32) : uint32\n  =\nvar _0 : uint32;\nvar x : uint32;\nvar y : uint32;\nvar z : uint32;\n\x7b\n  x <- o_x;\n  y <- o_y;\n  goto BB0;\n\x7d\nBB0 \x7b\n  z <- x + y;\n  _0\n\x7d\n") := by
  decide

/-- Claim C3 (counterexample): the parenthesization rule is not applied at
every embedding point: a `let` (rank 0) embedded under a current-value
projection (rank 5) has strictly lower precedence, yet its rendering is
embedded bare, not wrapped in parentheses. -/
theorem parens_rule_cex :
    (Exp.Let .Wildcard (.Var ("a")) (.Var ("b"))).precedence <
      (Exp.Current (.Let .Wildcard (.Var ("a")) (.Var ("b")))).precedence ∧
    printExp fe0 (.Current (.Let .Wildcard (.Var ("a")) (.Var ("b")))) =
      some (" * let _ = a in b") ∧
    (" * let _ = a in b" : String) ≠ " * (let _ = a in b)" := by decide

/-- Claim C3 (amended): the rule — wrap the rendered child in exactly one
pair of parentheses iff its precedence rank is strictly below the parent's —
is applied at the `let` value and body, record-update record and value,
`borrow_mut` operand, both binary operands, every call argument and both
implication sides; the current/final projections and quantifier bodies embed
the rendered child bare regardless of rank, and tuple members and
constructor arguments are embedded bare inside the surrounding list
parentheses. -/
theorem parens_rule_at_each_site (fe : FormatEnv) :
    (∀ p a b, printExp fe (.Let p a b) =
      (printExp fe a).bind (fun x => (printExp fe b).map (fun y =>
        "let " ++ printPattern p ++ " = " ++ wrapIf (.Let p a b) a x ++ " in " ++
          wrapIf (.Let p a b) b y))) ∧
    (∀ r lbl v, printExp fe (.RecUp r lbl v) =
      (printExp fe r).bind (fun x => (printExp fe v).map (fun y =>
        "\x7b " ++ wrapIf (.RecUp r lbl v) r x ++ " with " ++ lbl ++ " = " ++
          wrapIf (.RecUp r lbl v) v y ++ " \x7d"))) ∧
    (∀ e, printExp fe (.BorrowMut e) =
      (printExp fe e).map (fun s => "borrow_mut " ++ wrapIf (.BorrowMut e) e s)) ∧
    (∀ l r, printExp fe (.BinaryOp (.Other .Div) l r) =
      (printExp fe l).bind (fun ls => (printExp fe r).map (fun rs =>
        "div " ++ wrapIf (.BinaryOp (.Other .Div) l r) l ls ++ " " ++
          wrapIf (.BinaryOp (.Other .Div) l r) r rs))) ∧
    (∀ op l r, op ≠ FullBinOp.Other BinOp.Div → printExp fe (.BinaryOp op l r) =
      (printExp fe l).bind (fun ls => (binOpToString op).bind (fun ops =>
        (printExp fe r).map (fun rs =>
          wrapIf (.BinaryOp op l r) l ls ++ " " ++ ops ++ " " ++
            wrapIf (.BinaryOp op l r) r rs)))) ∧
    (∀ q args, printExp fe (.Call q args) =
      (printArgs fe (.Call q args) args).map (fun ss =>
        q.display ++ " " ++ sepBy " " ss)) ∧
    (∀ parent a as, printArgs fe parent (a :: as) =
      (printExp fe a).bind (fun s =>
        (printArgs fe parent as).map (fun ss => wrapIf parent a s :: ss))) ∧
    (∀ h c, printExp fe (.Impl h c) =
      (printExp fe h).bind (fun x => (printExp fe c).map (fun y =>
        wrapIf (.Impl h c) h x ++ " -> " ++ wrapIf (.Impl h c) c y))) ∧
    (∀ e, printExp fe (.Current e) = (printExp fe e).map (fun s => " * " ++ s)) ∧
    (∀ e, printExp fe (.Final e) = (printExp fe e).map (fun s => " ^ " ++ s)) ∧
    (∀ vs, printExp fe (.Tuple vs) =
      (printExpList fe vs).map (fun ss => "(" ++ sepBy ", " ss ++ ")")) ∧
    (∀ ctor a as, printExp fe (.Constructor ctor (a :: as)) =
      (printExpList fe (a :: as)).map (fun ss =>
        ctor.display ++ "(" ++ sepBy ", " ss ++ ")")) ∧
    (∀ bs e, printExp fe (.Forall bs e) =
      (printExp fe e).map (fun s =>
        "forall " ++ String.join (bs.map (fun b =>
          "(" ++ b.1 ++ " : " ++ printType fe b.2 ++ ") ")) ++ ". " ++ s)) ∧
    (∀ bs e, printExp fe (.Exists bs e) =
      (printExp fe e).map (fun s =>
        "exists " ++ String.join (bs.map (fun b =>
          "(" ++ b.1 ++ " : " ++ printType fe b.2 ++ ") ")) ++ ". " ++ s)) := by
  refine ⟨fun p a b => rfl, fun r lbl v => rfl, fun e => rfl, fun l r => rfl, ?_,
    fun q args => rfl, fun parent a as => rfl, fun h c => rfl, fun e => rfl,
    fun e => rfl, fun vs => rfl, fun ctor a as => rfl, fun bs e => rfl,
    fun bs e => rfl⟩
  intro op l r hne
  rcases op with _ | _ | o
  · rfl
  · rfl
  · cases o
    all_goals first
      | rfl
      | exact absurd rfl hne

/-- Witness for the amended claim C3: the binary-operand rule instantiated
at `a && b`, with the non-division hypothesis discharged. -/
theorem parens_rule_at_each_site_witness :
    (FullBinOp.And ≠ FullBinOp.Other BinOp.Div) ∧
    printExp fe0 (.BinaryOp FullBinOp.And (.Var ("a")) (.Var ("b"))) =
      (printExp fe0 (.Var ("a"))).bind (fun ls =>
        (binOpToString FullBinOp.And).bind (fun ops =>
          (printExp fe0 (.Var ("b"))).map (fun rs =>
            wrapIf (.BinaryOp FullBinOp.And (.Var ("a")) (.Var ("b"))) (.Var ("a")) ls ++
              " " ++ ops ++ " " ++
              wrapIf (.BinaryOp FullBinOp.And (.Var ("a")) (.Var ("b"))) (.Var ("b")) rs))) :=
  ⟨by decide, (parens_rule_at_each_site fe0).2.2.2.2.1 FullBinOp.And
    (.Var ("a")) (.Var ("b")) (by decide)⟩

/-- Claim C4 (counterexample): the freeze statement prints a space between
the borrow markers and the place: `assume { ^ x = * x }`, not
`assume { ^x = *x }`. -/
theorem freeze_spacing_cex :
    printStatement fe0 (.Freeze ("x")) = some ("assume \x7b ^ x = * x \x7d") ∧
    printStatement fe0 (.Freeze ("x")) ≠ some ("assume \x7b ^x = *x \x7d") := by decide

/-- Claim C4 (amended): a freeze statement renders as the current
indentation followed by `assume { ^ <place> = * <place> }`, with a single
space between each marker and the place, the same place appearing twice. -/
theorem freeze_statement_format (fe : FormatEnv) (loc : String) :
    printStatement fe (.Freeze loc) =
      some (indentStr fe.indent ++ "assume \x7b ^ " ++ loc ++ " = * " ++ loc ++ " \x7d") := by
  show some _ = some _
  congr 1
  simp [String.append_assoc]

/-- Claim C5 (counterexample): the current-value projection renders with a
leading space and a space after the star (` * x`, not `*x`), and the
mutable-borrow operand is parenthesized when its rank is lower
(`borrow_mut (a -> b)`, not `borrow_mut a -> b`). -/
theorem borrow_projection_cex :
    printExp fe0 (.Current (.Var ("x"))) = some (" * x") ∧
    (some (" * x") : Option String) ≠ some ("*x") ∧
    printExp fe0 (.BorrowMut (.Impl (.Var ("a")) (.Var ("b")))) =
      some ("borrow_mut (a -> b)") ∧
    printExp fe0 (.Impl (.Var ("a")) (.Var ("b"))) = some ("a -> b") ∧
    (some ("borrow_mut (a -> b)") : Option String) ≠ some ("borrow_mut a -> b") := by
  decide

/-- Claim C5 (amended): the current-value projection renders as ` * ` before
the rendered operand, the final-value projection as ` ^ ` (a leading space
and a space separating marker and operand), and mutable-borrow construction
as `borrow_mut ` before the operand, the operand wrapped in parentheses
exactly when its precedence rank is strictly below the borrow's. -/
theorem borrow_projection_format (fe : FormatEnv) (e : Exp) :
    printExp fe (.Current e) = (printExp fe e).map (fun s => " * " ++ s) ∧
    printExp fe (.Final e) = (printExp fe e).map (fun s => " ^ " ++ s) ∧
    printExp fe (.BorrowMut e) =
      (printExp fe e).map (fun s => "borrow_mut " ++ wrapIf (.BorrowMut e) e s) :=
  ⟨rfl, rfl, rfl⟩

/-- Claim C6: division renders in the prefix named form
`div <left> <right>`; subtraction and division nodes share one precedence
rank; the scenario `5 - a / b` renders exactly as `5 - div a b`. -/
theorem div_prefix_form :
    (∀ (fe : FormatEnv) (l r : Exp),
      printExp fe (.BinaryOp (.Other .Div) l r) =
        (printExp fe l).bind (fun ls => (printExp fe r).map (fun rs =>
          "div " ++ wrapIf (.BinaryOp (.Other .Div) l r) l ls ++ " " ++
            wrapIf (.BinaryOp (.Other .Div) l r) r rs))) ∧
    (∀ l r l' r' : Exp, (Exp.BinaryOp (.Other .Sub) l r).precedence =
      (Exp.BinaryOp (.Other .Div) l' r').precedence) ∧
    printExp fe0 subDivExp = some ("5 - div a b") :=
  ⟨fun _ _ _ => rfl, fun _ _ _ _ => rfl, by decide⟩

/-- Claim C7 (counterexample): the switch terminator's closing `end` line is
newline-terminated like every other line, so the render is not exactly the
claimed text (which lacks the final newline). -/
theorem switch_render_cex :
    printTerminator fe0 switchEx ≠
      some ("switch (flag)\n  | True -> goto BB1\n  | False -> goto BB2\n  end") := by
  decide

/-- Claim C7 (amended): a switch renders `switch (<discriminant>)` on one
line, then one `| <pattern> -> goto <block>` line per arm, two columns
deeper, in exactly the order supplied, then an `end` line at that same
deeper indent; every line, `end` included, is newline-terminated, so the
scenario output carries a final newline. -/
theorem switch_render :
    (∀ (fe : FormatEnv) (d : Exp) (brs : List (Pattern × BlockId)),
      printTerminator fe (.Switch d brs) =
        (printExp fe d).map (fun ds =>
          indentStr fe.indent ++ ("switch (" ++ ds ++ ")") ++ "\n" ++
          String.join (brs.map (fun br =>
            indentStr (fe.indent + 2) ++
              ("| " ++ printPattern br.1 ++ " -> goto " ++ printBlockId br.2) ++ "\n")) ++
          indentStr (fe.indent + 2) ++ "end" ++ "\n")) ∧
    printTerminator fe0 switchEx =
      some ("switch (flag)\n  | True -> goto BB1\n  | False -> goto BB2\n  end\n") :=
  ⟨fun _ _ _ => rfl, by decide⟩

/-- Claim C8 (counterexample): a type declaration's constructor line carries
the two literal spaces of the `"  | "` format string on top of the
`indent(2, ..)` delta: at base indent 0 the line `    | A` has four leading
spaces, not `0 + 2`. -/
theorem indentation_cex :
    printTyDecl fe0 tyDeclEx = "type t  =\n    | A\n" ∧
    leadingSpaces ("    | A") = 4 ∧ (0 + 2 : Nat) ≠ 4 := by decide

/-- Claim C8 (amended): for inputs whose embedded fragments render
newline-free (and whose line-initial names do not begin with a space), the
printed function is exactly its lines, each line's leading-space count being
the base indent plus the sum of the enclosing `indent(2, ..)` deltas — the
environment is copied, never mutated, so sibling lines after a nested
context return to the prior indent; a type declaration obeys the same
discipline except that its constructor lines carry two extra literal spaces
(base + delta + 2). -/
theorem indentation_discipline :
    (∀ (fe : FormatEnv) (fn : Function), wfFunction fe fn = true →
      ∃ L, functionLines fe fn = some L ∧
        printFunction fe fn = some (joinLines L) ∧
        (∀ l ∈ L, noNL l = true) ∧
        L.map leadingSpaces = functionIndents fe.indent fn) ∧
    (∀ (fe : FormatEnv) (d : TyDecl), wfTyDecl fe d = true →
      printTyDecl fe d = joinLines (tyDeclLines fe d) ∧
      (∀ l ∈ tyDeclLines fe d, noNL l = true) ∧
      (tyDeclLines fe d).map leadingSpaces =
        fe.indent :: List.replicate d.ty_constructors.length (fe.indent + 2 + 2)) :=
  ⟨functionLines_spec, tyDeclLines_spec⟩

set_option maxRecDepth 10000 in
/-- Witness for the amended claim C8: the discipline instantiated at the
`add` function and the one-constructor declaration, hypotheses discharged by
computation. -/
theorem indentation_discipline_witness :
    wfFunction fe0 addFn = true ∧
    (∃ L, functionLines fe0 addFn = some L ∧
      printFunction fe0 addFn = some (joinLines L) ∧
      (∀ l ∈ L, noNL l = true) ∧
      L.map leadingSpaces = functionIndents fe0.indent addFn) ∧
    wfTyDecl fe0 tyDeclEx = true ∧
    (printTyDecl fe0 tyDeclEx = joinLines (tyDeclLines fe0 tyDeclEx) ∧
      (∀ l ∈ tyDeclLines fe0 tyDeclEx, noNL l = true) ∧
      (tyDeclLines fe0 tyDeclEx).map leadingSpaces =
        fe0.indent :: List.replicate tyDeclEx.ty_constructors.length (fe0.indent + 2 + 2)) :=
  ⟨by decide, indentation_discipline.1 fe0 addFn (by decide),
   by decide, indentation_discipline.2 fe0 tyDeclEx (by decide)⟩

/-- Claim C9: when every binary operation of the expression uses a supported
operator (`&&`, `||`, `+`, `-`, `*`, `=`, `<>`, `>`, `>=`, `<`, `<=`, or
division, which is matched before the operator table is consulted),
rendering never reaches the fatal `unreachable!("unexpected bin-op")`
branch. -/
theorem binop_rendering_safe (fe : FormatEnv) (e : Exp)
    (h : opsSupported e = true) : (printExp fe e).isSome = true :=
  printExp_isSome fe e h

/-- Witness for claim C9: a division node renders successfully. -/
theorem binop_rendering_safe_witness :
    opsSupported (Exp.BinaryOp (FullBinOp.Other BinOp.Div)
      (Exp.Var ("a")) (Exp.Var ("b"))) = true ∧
    (printExp fe0 (Exp.BinaryOp (FullBinOp.Other BinOp.Div)
      (Exp.Var ("a")) (Exp.Var ("b")))).isSome = true :=
  ⟨by decide, binop_rendering_safe fe0 _ (by decide)⟩

/-- Claim C10: tuple types join their member types with a single space
inside the parentheses, while tuple expressions join their members with a
comma and a space: the two separators differ. -/
theorem tuple_separators (fe : FormatEnv) (t1 t2 : Ty) (ts : List Ty)
    (e1 e2 : Exp) (es : List Exp) (s1 s2 : String)
    (h1 : printExp fe e1 = some s1) (h2 : printExp fe e2 = some s2) :
    printType fe (.Tuple (t1 :: t2 :: ts)) =
      "(" ++ sepBy " " (List.map (printType fe) (t1 :: t2 :: ts)) ++ ")" ∧
    printType fe (.Tuple [t1, t2]) =
      "(" ++ (printType fe t1 ++ " " ++ printType fe t2) ++ ")" ∧
    printExp fe (.Tuple (e1 :: e2 :: es)) =
      (printExpList fe (e1 :: e2 :: es)).map (fun ss => "(" ++ sepBy ", " ss ++ ")") ∧
    printExp fe (.Tuple [e1, e2]) = some ("(" ++ (s1 ++ ", " ++ s2) ++ ")") := by
  refine ⟨?_, rfl, rfl, ?_⟩
  · rw [← printTypeList_eq_map]
    rfl
  · simp only [printExp, printExpList, h1, h2]
    rfl

/-- Witness for claim C10: instantiated at `(bool, char)` and `(a, b)`. -/
theorem tuple_separators_witness :
    printExp fe0 (.Var ("a")) = some ("a") ∧ printExp fe0 (.Var ("b")) = some ("b") ∧
    (printType fe0 (.Tuple [Ty.Bool, Ty.Char, Ty.Bool]) =
      "(" ++ sepBy " " (List.map (printType fe0) [Ty.Bool, Ty.Char, Ty.Bool]) ++ ")" ∧
     printType fe0 (.Tuple [Ty.Bool, Ty.Char]) =
      "(" ++ (printType fe0 Ty.Bool ++ " " ++ printType fe0 Ty.Char) ++ ")" ∧
     printExp fe0 (.Tuple [Exp.Var ("a"), Exp.Var ("b"), Exp.Var ("a")]) =
      (printExpList fe0 [Exp.Var ("a"), Exp.Var ("b"), Exp.Var ("a")]).map
        (fun ss => "(" ++ sepBy ", " ss ++ ")") ∧
     printExp fe0 (.Tuple [Exp.Var ("a"), Exp.Var ("b")]) =
      some ("(" ++ ("a" ++ ", " ++ "b") ++ ")")) :=
  ⟨rfl, rfl, tuple_separators fe0 Ty.Bool Ty.Char [Ty.Bool] (Exp.Var ("a"))
    (Exp.Var ("b")) [Exp.Var ("a")] ("a") ("b") rfl rfl⟩

end Mlcfg
